import Mathlib

/-!
Verification development for the feedback-analyzer backend.

This file gives a shallow embedding of the core of the Python backend
(`backend/app/`): the record store (`storage.py`), the cursor store and
event worker pool (`event_queue.py`), the WebSocket bridge (`ws_bridge.py`),
the broadcaster (`ws_broadcaster.py`), the LLM analyzer pipeline
(`analyze_pipeline.py`), the bulk-upload engine (`main.py` / `bulk_upload.py`)
and the metrics engine (`metrics.py`), together with theorems settling the
specification claims about them.

Python `datetime` values are modelled as a wall-clock reading in seconds plus
an optional UTC-offset; machine-independent unbounded Python integers are
modelled as `Int`; dictionaries keyed by strings are modelled as association
lists; the external LLM predictor and the fresh-identifier supply (uuid4) are
parameters of the functions that use them.
-/

namespace FeedbackAnalyzer

/-- Model of a Python `datetime`: the wall-clock reading in seconds together
with an optional UTC offset in seconds; `tz = none` models a naive datetime
(or one whose tzinfo reports no offset). -/
structure PyDateTime where
  wall : Int
  tz : Option Int
deriving DecidableEq, Repr

/-- The absolute instant of a datetime, in UTC seconds: a naive datetime is
read as UTC wall time, an aware one subtracts its offset.  This mirrors the
`_as_utc` helper in `metrics.py` (and `_normalize_created_at` in
`storage.py`), after which comparisons are on absolute instants. -/
def utc_seconds (d : PyDateTime) : Int :=
  match d.tz with
  | none => d.wall
  | some off => d.wall - off

/-- `Sentiment` enum from `models.py`. -/
inductive Sentiment
  | positive
  | neutral
  | negative
deriving DecidableEq, Repr

/-- `Sentiment(value)`: parse a sentiment string, `none` when the constructor
would raise `ValueError`. -/
def sentimentOfString (s : String) : Option Sentiment :=
  if s = "positive" then some .positive
  else if s = "neutral" then some .neutral
  else if s = "negative" then some .negative
  else none

/-- `FeedbackRecord` from `models.py`. -/
structure FeedbackRecord where
  id : String
  text : String
  userId : Option String
  sentiment : Sentiment
  keyTopics : List String
  actionRequired : Bool
  summary : String
  createdAt : PyDateTime
deriving DecidableEq, Repr

/-! ## Record store (`storage.py`) -/

/-- `_normalize_created_at` from `storage.py`: a naive datetime gets
`tzinfo=timezone.utc` attached (wall clock kept), an aware one is converted
with `astimezone(timezone.utc)` (absolute instant kept, offset becomes 0). -/
def normalize_created_at (dt : PyDateTime) : PyDateTime :=
  match dt.tz with
  | none => { wall := dt.wall, tz := some 0 }
  | some off => { wall := dt.wall - off, tz := some 0 }

/-- `_normalize_record` from `storage.py`. -/
def normalize_record (r : FeedbackRecord) : FeedbackRecord :=
  { r with createdAt := normalize_created_at r.createdAt }

/-- `append_feedback`: normalize `createdAt`, then append the serialized
record to the backing JSON array (modelled as the list of records). -/
def append_feedback (store : List FeedbackRecord) (r : FeedbackRecord) :
    List FeedbackRecord :=
  store ++ [normalize_record r]

/-- `append_feedback_many`: early-return on an empty list, otherwise
normalize every record and append them all in one read-modify-write. -/
def append_feedback_many (store : List FeedbackRecord) (rs : List FeedbackRecord) :
    List FeedbackRecord :=
  if rs.isEmpty then store else store ++ rs.map normalize_record

/-- `read_all_feedback`: parse the backing array back into records. -/
def read_all_feedback (store : List FeedbackRecord) : List FeedbackRecord :=
  store

/-- A write operation against the record store. -/
inductive StoreOp
  | append (r : FeedbackRecord)
  | appendMany (rs : List FeedbackRecord)
deriving Repr

/-- Run a sequence of store writes. -/
def apply_store_ops (store : List FeedbackRecord) : List StoreOp → List FeedbackRecord
  | [] => store
  | StoreOp.append r :: rest => apply_store_ops (append_feedback store r) rest
  | StoreOp.appendMany rs :: rest => apply_store_ops (append_feedback_many store rs) rest

/-- The records a sequence of store writes submits, in write order. -/
def written_records : List StoreOp → List FeedbackRecord
  | [] => []
  | StoreOp.append r :: rest => r :: written_records rest
  | StoreOp.appendMany rs :: rest => rs ++ written_records rest

/-! ## Cursor store and worker pool (`event_queue.py`) -/

/-- `CursorStore.get`: the per-job cursor map, `0` for a never-seen job.
The map `dict[str, int]` is modelled as an association list. -/
def cursor_get (cursors : List (String × Int)) (jobId : String) : Int :=
  (cursors.lookup jobId).getD 0

/-- `CursorStore.update`: unconditional set of the binding for `jobId`. -/
def cursor_update : List (String × Int) → String → Int → List (String × Int)
  | [], jobId, seq => [(jobId, seq)]
  | (k, v) :: rest, jobId, seq =>
    if k = jobId then (k, seq) :: rest else (k, v) :: cursor_update rest jobId seq

/-- The `payload` mapping of an event; `item.analyzed` payload fields, each
optional since `_process_event` reads them with `.get` defaults. -/
structure EventPayload where
  text : Option String := none
  sentiment : Option String := none
  keyTopics : Option (List String) := none
  actionRequired : Option Bool := none
  summary : Option String := none
deriving DecidableEq, Repr

/-- An upstream event as `_process_event` reads it: `event.get("jobId", "")`,
`event.get("seq", 0)` (so an absent seq is 0), `event.get("type", "")`. -/
structure Event where
  jobId : String
  seq : Int
  type : String
  payload : EventPayload
deriving DecidableEq, Repr

/-- The `FeedbackRecord` that `_process_event` builds for an `item.analyzed`
event: fresh uuid id, payload fields with `.get` defaults, unknown sentiment
coerced to neutral, `createdAt = datetime.now(timezone.utc)`. -/
def event_record (freshId : String) (now : Int) (payload : EventPayload) :
    FeedbackRecord :=
  { id := freshId
    text := payload.text.getD ""
    userId := none
    sentiment := (sentimentOfString (payload.sentiment.getD "neutral")).getD .neutral
    keyTopics := payload.keyTopics.getD []
    actionRequired := payload.actionRequired.getD false
    summary := payload.summary.getD "No summary provided."
    createdAt := { wall := now, tz := some 0 } }

/-- One observable side effect of the worker pool, in program order. -/
inductive WorkerAction
  | persist (r : FeedbackRecord)
  | updateCursor (jobId : String) (seq : Int)
  | broadcastEvent (e : Event)
deriving DecidableEq, Repr

/-- `EventWorkerPool._process_event`, as a function from the cursor state to
the new cursor state together with the ordered trace of side effects the
body performs: dedup check first (skip with no side effects), then for
`item.analyzed` a persist attempt, then `cursor.update`, then `broadcast`
for every event type. -/
def process_event (cursors : List (String × Int)) (freshId : String) (now : Int)
    (event : Event) : List (String × Int) × List WorkerAction :=
  let cursor := cursor_get cursors event.jobId
  if event.seq ≤ cursor then (cursors, [])
  else
    let persistActs :=
      if event.type = "item.analyzed" then
        [WorkerAction.persist (event_record freshId now event.payload)]
      else []
    (cursor_update cursors event.jobId event.seq,
      persistActs ++
        [WorkerAction.updateCursor event.jobId event.seq,
         WorkerAction.broadcastEvent event])

/-- Replay the cursor updates of an action trace onto a cursor state: the
cursor-store contents at the end of the trace. -/
def apply_cursor_actions (c : List (String × Int)) : List WorkerAction → List (String × Int)
  | [] => c
  | WorkerAction.updateCursor j s :: rest => apply_cursor_actions (cursor_update c j s) rest
  | WorkerAction.persist _ :: rest => apply_cursor_actions c rest
  | WorkerAction.broadcastEvent _ :: rest => apply_cursor_actions c rest

/-- Number of persist attempts in a trace. -/
def count_persist (acts : List WorkerAction) : Nat :=
  (acts.filter fun a => match a with | WorkerAction.persist _ => true | _ => false).length

/-- Number of broadcasts in a trace. -/
def count_broadcast (acts : List WorkerAction) : Nat :=
  (acts.filter fun a => match a with | WorkerAction.broadcastEvent _ => true | _ => false).length

/-- All cursor values in a store are nonnegative (true of every store the
pool itself writes: `update` is only reached with `seq > cursor ≥ 0`). -/
def cursors_nonneg (cursors : List (String × Int)) : Prop :=
  ∀ p ∈ cursors, 0 ≤ p.2

/-! ## WebSocket bridge (`ws_bridge.py`) -/

/-- The bridge's mutable state: the in-memory `_last_seq_by_job` map, and the
bounded inbound queue (contents plus its `maxsize`, assumed positive,
matching the default 256). -/
structure BridgeState where
  lastSeqByJob : List (String × Int)
  queue : List Event
  queueMax : Nat
deriving DecidableEq, Repr

/-- `WSBridge._max_seq`: 0 when the map is empty, else the maximum of its
values.  This is the `resumeFromSeq` value sent on (re)connection. -/
def max_seq (lastSeqByJob : List (String × Int)) : Int :=
  match lastSeqByJob with
  | [] => 0
  | p :: rest => rest.foldl (fun acc q => max acc q.2) p.2

/-- One iteration of `WSBridge._receive_loop` on a successfully parsed event:
first `_last_seq_by_job[jobId] := max(prev, seq)` is recorded, then a
non-blocking enqueue is attempted; on a full queue the event is dropped
(queue unchanged) and a warning is logged. -/
def receive_event (s : BridgeState) (event : Event) : BridgeState :=
  let tracked := max ((s.lastSeqByJob.lookup event.jobId).getD 0) event.seq
  let lastSeq := cursor_update s.lastSeqByJob event.jobId tracked
  if s.queue.length < s.queueMax then
    { s with lastSeqByJob := lastSeq, queue := s.queue ++ [event] }
  else
    { s with lastSeqByJob := lastSeq }

/-! ## Broadcaster (`ws_broadcaster.py`) -/

/-- `Broadcaster.broadcast`, with subscribers modelled as identifiers in a
duplicate-free list (the set `_clients`), the serializer and each
subscriber's send outcome as parameters.  Returns the new subscriber set and
the ordered list of send attempts `(subscriber, message)`: the event is
serialized once up front, a snapshot of the set is taken, one send is
attempted per snapshot member, and the failed ones are subtracted at the
end. -/
def broadcast_step (serialize : Event → String) (sendOk : Nat → Bool)
    (clients : List Nat) (event : Event) : List Nat × List (Nat × String) :=
  let message := serialize event
  let snapshot := clients
  let attempts := snapshot.map fun ws => (ws, message)
  let dead := snapshot.filter fun ws => !(sendOk ws)
  (clients.filter (fun ws => !(dead.contains ws)), attempts)

/-! ## LLM analyzer (`analyze_pipeline.py`) -/

/-- `FeedbackAnalysis`, the structured output the predictor returns. -/
structure RawAnalysis where
  sentiment : Sentiment
  key_topics : List String
  action_required : Bool
  summary : String
deriving DecidableEq, Repr

/-- The analysis dict the pipeline returns per item. -/
structure Analysis where
  sentiment : Sentiment
  keyTopics : List String
  actionRequired : Bool
  summary : String
deriving DecidableEq, Repr

/-- Python `str.strip()`: drop whitespace from both ends.  Implemented over
the character list so that it is executable by kernel reduction. -/
def py_strip (s : String) : String :=
  String.mk (((s.data.dropWhile Char.isWhitespace).reverse.dropWhile
    Char.isWhitespace).reverse)

/-- Python `str.lower()`, over the character list. -/
def py_lower (s : String) : String :=
  String.mk (s.data.map Char.toLower)

/-- `normalize_topics`: keep the entries whose strip is non-empty, each
stripped and lowercased. -/
def normalize_topics (raw : List String) : List String :=
  (raw.filter fun t => py_strip t != "").map fun t => py_lower (py_strip t)

/-- The per-item post-processing both analyze paths apply to a structured
result: normalized topics, empty summary replaced by the placeholder. -/
def analysis_of_raw (r : RawAnalysis) : Analysis :=
  { sentiment := r.sentiment
    keyTopics := normalize_topics r.key_topics
    actionRequired := r.action_required
    summary := if r.summary = "" then "No summary provided." else r.summary }

/-- The fallback analysis `analyze_feedback` returns when the predictor
raises. -/
def fallback_analysis (msg : String) : Analysis :=
  { sentiment := .neutral
    keyTopics := ["error"]
    actionRequired := true
    summary := "Error analyzing feedback: " ++ msg }

/-- `analyze_feedback`: invoke the single-item structured predictor
(a parameter, which may fail with a message); on failure return the
fallback analysis. -/
def analyze_feedback (predictSingle : String → Except String RawAnalysis)
    (text : String) : Analysis :=
  match predictSingle text with
  | .ok r => analysis_of_raw r
  | .error e => fallback_analysis e

/-- How a batch analyze call fails: the predictor raised, or its result
failed the length validation (`ValueError` in the source). -/
inductive BatchErrorKind
  | predictorError (msg : String)
  | validationError (expected got : Nat)
deriving DecidableEq, Repr

/-- `analyze_feedback_batch`: empty input returns `[]`; a single text
delegates to `analyze_feedback`; otherwise the batch predictor runs and its
result is rejected with a validation error unless it has exactly one
analysis per input text, in which case each is post-processed in order. -/
def analyze_feedback_batch (predictSingle : String → Except String RawAnalysis)
    (predictBatch : List String → Except String (List RawAnalysis))
    (texts : List String) : Except BatchErrorKind (List Analysis) :=
  match texts with
  | [] => .ok []
  | [t] => .ok [analyze_feedback predictSingle t]
  | _ =>
    match predictBatch texts with
    | .error e => .error (.predictorError e)
    | .ok result =>
      if result.length ≠ texts.length then
        .error (.validationError texts.length result.length)
      else
        .ok (result.map analysis_of_raw)

/-! ## Bulk enrichment engine (`main.py` `bulk_upload`, `bulk_upload.py`) -/

/-- One parsed upload item, as `bulk_upload` reads it with `.get`: every key
optional.  `createdAt` holds the already-parsed timestamp when the raw value
is present and parses (`parse_created_at` falls back to now on a parse
failure, the same value an absent key yields). -/
structure BulkItem where
  text : Option String := none
  userId : Option String := none
  user_id : Option String := none
  user : Option String := none
  id : Option String := none
  createdAt : Option PyDateTime := none
deriving DecidableEq, Repr

/-- Python `a or b` on optional strings: `None` and `""` are falsy. -/
def or_py (a b : Option String) : Option String :=
  match a with
  | none => b
  | some s => if s = "" then b else some s

/-- `item.get("userId") or item.get("user_id") or item.get("user")`, then
`str(...)` when not `None`. -/
def resolve_user_id (item : BulkItem) : Option String :=
  or_py item.userId (or_py item.user_id item.user)

/-- `str(item.get("text") or "").strip()`. -/
def eff_text (item : BulkItem) : String :=
  py_strip (item.text.getD "")

/-- A metadata entry built in the prepare phase (the dict with keys index,
item, userId, createdAt). -/
structure BulkMeta where
  index : Nat
  item : BulkItem
  userId : Option String
  createdAt : PyDateTime
deriving DecidableEq, Repr

/-- An entry of the result's `failed` list. -/
structure BulkFailure where
  index : Nat
  error : String
deriving DecidableEq, Repr

/-- An entry of the result's `success` list. -/
structure BulkSuccess where
  index : Nat
  id : String
deriving DecidableEq, Repr

/-- A prepared batch: parallel `texts` and `metadata` lists. -/
structure PreparedBatch where
  texts : List String
  metadata : List BulkMeta
deriving DecidableEq, Repr

/-- The inner loop of Phase 1 over one slice of items: `start` is the global
index of the first item.  Empty-after-trim texts go to the failure list with
reason "Missing text"; the rest accumulate into the parallel texts/metadata
lists, in input order. -/
def prep_items (now : PyDateTime) (start : Nat) :
    List BulkItem → List String × List BulkMeta × List BulkFailure
  | [] => ([], [], [])
  | item :: rest =>
    let r := prep_items now (start + 1) rest
    let text := eff_text item
    if text = "" then
      (r.1, r.2.1, { index := start, error := "Missing text" } :: r.2.2)
    else
      (text :: r.1,
       { index := start, item := item, userId := resolve_user_id item,
         createdAt := item.createdAt.getD now } :: r.2.1,
       r.2.2)

/-- Fuel-indexed body of `chunk_list`: each step takes one slice of `bs`
elements off the front.  One unit of fuel is spent per slice, and each slice
removes at least the head element, so fuel `l.length` always suffices; the
fuel-exhausted case is unreachable from `chunk_list`. -/
def chunk_fuel (bs : Nat) : Nat → List α → List (List α)
  | _, [] => []
  | 0, l => [l]
  | fuel + 1, x :: xs => (x :: xs.take (bs - 1)) :: chunk_fuel bs fuel (xs.drop (bs - 1))

/-- `items[batch_idx : batch_idx + batch_size]` slicing of
`range(0, len(items), batch_size)`: split a list into consecutive slices.
Faithful to the source for `bs ≥ 1` (the endpoint enforces
`batch_size ≥ 1`). -/
def chunk_list (bs : Nat) (l : List α) : List (List α) :=
  chunk_fuel bs l.length l

/-- Phase 1 over the chunked items: prepare each slice at its global offset;
a slice whose texts list is empty contributes no prepared batch
(`if batch_texts:` in the source); prep failures concatenate in order. -/
def prepare_batches (now : PyDateTime) (start : Nat) :
    List (List BulkItem) → List PreparedBatch × List BulkFailure
  | [] => ([], [])
  | c :: cs =>
    let p := prep_items now start c
    let rest := prepare_batches now (start + c.length) cs
    (if p.1.isEmpty then rest.1 else { texts := p.1, metadata := p.2.1 } :: rest.1,
     p.2.2 ++ rest.2)

/-- `make_record_id` from `bulk_upload.py`: `str(item.get("id") or uuid4())`
(a missing or empty id yields the fresh identifier). -/
def make_record_id (item : BulkItem) (fresh : String) : String :=
  match item.id with
  | none => fresh
  | some s => if s = "" then fresh else s

/-- A Phase 2 envelope: the batch analysis either succeeded with the
analyses, or failed with an error message. -/
inductive BatchResult
  | ok (texts : List String) (metadata : List BulkMeta) (analyses : List Analysis)
  | failed (metadata : List BulkMeta) (error : String)
deriving DecidableEq, Repr

/-- Phase 2: every prepared batch is dispatched and `asyncio.gather` returns
the envelopes in input order; the per-batch outcome of
`analyze_feedback_batch` (exceptions carried as their message) is a
parameter. -/
def run_batches (runBatch : List String → Except String (List Analysis))
    (batches : List PreparedBatch) : List BatchResult :=
  batches.map fun b =>
    match runBatch b.texts with
    | .ok analyses => BatchResult.ok b.texts b.metadata analyses
    | .error e => BatchResult.failed b.metadata e

/-- The record Phase 3 builds for a success item: the id from `item.id` or a
fresh identifier (the uuid supply is a parameter indexed by the global item
index), the text looked up at position `textIdx` in the batch's texts. -/
def bulk_record (fresh : Nat → String) (texts : List String) (textIdx : Nat)
    (meta : BulkMeta) (analysis : Analysis) : FeedbackRecord :=
  { id := make_record_id meta.item (fresh meta.index)
    text := texts.getD textIdx ""
    userId := meta.userId
    sentiment := analysis.sentiment
    keyTopics := analysis.keyTopics
    actionRequired := analysis.actionRequired
    summary := analysis.summary
    createdAt := meta.createdAt }

/-- Phase 3 inner loop over `zip(metadata, analyses)` of a success envelope,
as the source writes it: the text index is `metadata.index(meta)` (first
occurrence), and the item lands in `failed` when the per-item body raises
(modelled by the only fallible step, the `texts[text_idx]` lookup, going out
of range). -/
def collect_ok (fresh : Nat → String) (texts : List String) (metadata : List BulkMeta) :
    List (BulkMeta × Analysis) → List FeedbackRecord × List BulkSuccess × List BulkFailure
  | [] => ([], [], [])
  | (meta, analysis) :: rest =>
    let r := collect_ok fresh texts metadata rest
    let textIdx := metadata.indexOf meta
    if textIdx < texts.length then
      let record := bulk_record fresh texts textIdx meta analysis
      (record :: r.1, { index := meta.index, id := record.id } :: r.2.1, r.2.2)
    else
      (r.1, r.2.1, { index := meta.index, error := "list index out of range" } :: r.2.2)

/-- Phase 3 on one envelope: a failed envelope marks every metadata entry
failed with the "Batch error: " reason. -/
def collect_result (fresh : Nat → String) :
    BatchResult → List FeedbackRecord × List BulkSuccess × List BulkFailure
  | BatchResult.ok texts metadata analyses =>
    collect_ok fresh texts metadata (metadata.zip analyses)
  | BatchResult.failed metadata e =>
    ([], [], metadata.map fun m => { index := m.index, error := "Batch error: " ++ e })

/-- Phase 3 over all envelopes in order, concatenating records, successes
and failures. -/
def collect_all (fresh : Nat → String) :
    List BatchResult → List FeedbackRecord × List BulkSuccess × List BulkFailure
  | [] => ([], [], [])
  | br :: rest =>
    let h := collect_result fresh br
    let r := collect_all fresh rest
    (h.1 ++ r.1, h.2.1 ++ r.2.1, h.2.2 ++ r.2.2)

/-- The bulk result envelope fields the claims are about. -/
structure BulkResult where
  total : Nat
  success : List BulkSuccess
  failed : List BulkFailure
  records : List FeedbackRecord
deriving Repr

/-- The `bulk_upload` endpoint body (phases 1-3), for a parsed item list:
`total = len(items)`, `failed` starts from the prep failures, and the
collected records are what `append_feedback_many` receives. -/
def bulk_upload (bs : Nat) (now : PyDateTime) (fresh : Nat → String)
    (runBatch : List String → Except String (List Analysis))
    (items : List BulkItem) : BulkResult :=
  let prep := prepare_batches now 0 (chunk_list bs items)
  let collected := collect_all fresh (run_batches runBatch prep.1)
  { total := items.length
    success := collected.2.1
    failed := prep.2 ++ collected.2.2
    records := collected.1 }

/-- The positional-zip collect the spec prescribes for a success envelope:
the i-th metadata entry pairs with the i-th analysis and takes the i-th
text; `i` counts from the given offset. -/
def collect_ok_positional (fresh : Nat → String) (texts : List String) :
    Nat → List (BulkMeta × Analysis) → List FeedbackRecord × List BulkSuccess × List BulkFailure
  | _, [] => ([], [], [])
  | i, (meta, analysis) :: rest =>
    let r := collect_ok_positional fresh texts (i + 1) rest
    let record := bulk_record fresh texts i meta analysis
    (record :: r.1, { index := meta.index, id := record.id } :: r.2.1, r.2.2)

/-! ## Metrics engine (`metrics.py`) -/

/-- `dt.replace(second=0, microsecond=0)` on an absolute timestamp. -/
def floor_minute (t : Int) : Int := 60 * (t.fdiv 60)

/-- `dt.minute` of an absolute timestamp. -/
def minute_of (t : Int) : Int := (t.fdiv 60) % 60

/-- `_floor_bucket`: floor to the minute, then subtract `minute % 5`
minutes. -/
def floor_bucket (t : Int) : Int := floor_minute t - 60 * (minute_of t % 5)

/-- One `submissionsByTime` bucket. -/
structure TimeBucket where
  bucket : String
  count : Nat
  positive : Nat
  neutral : Nat
  negative : Nat
deriving DecidableEq, Repr

/-- Two-digit zero padding. -/
def pad2 (n : Nat) : String := if n < 10 then "0" ++ toString n else toString n

/-- `strftime("%H:%M")` of an absolute UTC timestamp. -/
def fmt_hhmm (t : Int) : String :=
  pad2 ((t.fdiv 3600) % 24).toNat ++ ":" ++ pad2 ((t.fdiv 60) % 60).toNat

/-- `bucket_count = window_minutes // bucket_minutes = 60 // 5` in the
source. -/
def bucket_count : Nat := 60 / 5

/-- The initial 12 zeroed buckets, labelled from `window_start` in 5-minute
steps. -/
def init_buckets (windowStart : Int) : List TimeBucket :=
  (List.range bucket_count).map fun (i : Nat) =>
    { bucket := fmt_hhmm (windowStart + 300 * (i : Int)), count := 0,
      positive := 0, neutral := 0, negative := 0 }

/-- Increment a bucket's total and per-sentiment counters. -/
def bump_bucket (s : Sentiment) (b : TimeBucket) : TimeBucket :=
  { b with
    count := b.count + 1
    positive := if s = .positive then b.positive + 1 else b.positive
    neutral := if s = .neutral then b.neutral + 1 else b.neutral
    negative := if s = .negative then b.negative + 1 else b.negative }

/-- Replace the n-th bucket by its bumped version. -/
def bump_at (s : Sentiment) : List TimeBucket → Nat → List TimeBucket
  | [], _ => []
  | b :: bs, 0 => bump_bucket s b :: bs
  | b :: bs, n + 1 => b :: bump_at s bs n

/-- The per-record body of the `compute_metrics` loop on the bucket list:
window filter `window_start <= created_at <= window_end + 5min`, then
`idx = (created_at - window_start) // 300` guarded by `0 <= idx < 12`. -/
def tally_record (windowStart windowEnd : Int) (buckets : List TimeBucket)
    (r : FeedbackRecord) : List TimeBucket :=
  let t := utc_seconds r.createdAt
  if windowStart ≤ t ∧ t ≤ windowEnd + 300 then
    let idx := (t - windowStart).fdiv 300
    if 0 ≤ idx ∧ idx < (bucket_count : Int) then bump_at r.sentiment buckets idx.toNat
    else buckets
  else buckets

/-- The `submissionsByTime` part of `compute_metrics(records)` at absolute
UTC time `now`: `window_end = _floor_bucket(now)`,
`window_start = window_end - 11 * 5min`, then the counting loop over the
records. -/
def submissions_by_time (now : Int) (records : List FeedbackRecord) :
    List TimeBucket :=
  let windowEnd := floor_bucket now
  let windowStart := windowEnd - 300 * ((bucket_count : Int) - 1)
  records.foldl (tally_record windowStart windowEnd) (init_buckets windowStart)

/-- The default used with `getD` when indexing the bucket list in
statements; never reached on an in-range index. -/
def default_bucket : TimeBucket :=
  { bucket := "", count := 0, positive := 0, neutral := 0, negative := 0 }

/-- The default used with `getD` when indexing item lists in statements;
never reached on an in-range index. -/
def default_item : BulkItem := {}

/-- The default used with `getD` when indexing record lists in statements;
never reached on an in-range index. -/
def default_record : FeedbackRecord :=
  { id := "", text := "", userId := none, sentiment := Sentiment.neutral,
    keyTopics := [], actionRequired := false, summary := "",
    createdAt := { wall := 0, tz := none } }

/-! ## Shared helper lemmas -/

theorem cursor_get_update_self (c : List (String × Int)) (j : String) (s : Int) :
    cursor_get (cursor_update c j s) j = s := by
  induction c with
  | nil => simp [cursor_update, cursor_get]
  | cons p rest ih =>
    obtain ⟨k, v⟩ := p
    by_cases hk : k = j
    · subst hk
      simp [cursor_update, cursor_get, List.lookup_cons]
    · have hbeq : (j == k) = false := beq_eq_false_iff_ne.mpr (Ne.symm hk)
      simp only [cursor_update, if_neg hk]
      simpa [cursor_get, List.lookup_cons, hbeq] using ih

theorem lookup_mem {l : List (String × Int)} {a : String} {b : Int}
    (h : l.lookup a = some b) : (a, b) ∈ l := by
  induction l with
  | nil => simp at h
  | cons p rest ih =>
    obtain ⟨k, v⟩ := p
    by_cases hk : a = k
    · subst hk
      simp [List.lookup_cons] at h
      simp [h]
    · have hbeq : (a == k) = false := beq_eq_false_iff_ne.mpr hk
      simp [List.lookup_cons, hbeq] at h
      exact List.mem_cons_of_mem _ (ih h)

theorem cursor_get_nonneg {c : List (String × Int)} (hc : cursors_nonneg c)
    (j : String) : 0 ≤ cursor_get c j := by
  unfold cursor_get
  cases hl : c.lookup j with
  | none => simp
  | some v => simpa using hc (j, v) (lookup_mem hl)

theorem apply_cursor_actions_persist (c : List (String × Int)) (r : FeedbackRecord)
    (rest : List WorkerAction) :
    apply_cursor_actions c (WorkerAction.persist r :: rest) = apply_cursor_actions c rest := rfl

theorem process_event_skip (c : List (String × Int)) (f : String) (n : Int)
    (event : Event) (h : event.seq ≤ cursor_get c event.jobId) :
    process_event c f n event = (c, []) := by
  unfold process_event
  rw [if_pos h]

theorem process_event_run (c : List (String × Int)) (f : String) (n : Int)
    (event : Event) (h : ¬ event.seq ≤ cursor_get c event.jobId) :
    process_event c f n event = (cursor_update c event.jobId event.seq,
      (if event.type = "item.analyzed" then
        [WorkerAction.persist (event_record f n event.payload)] else []) ++
      [WorkerAction.updateCursor event.jobId event.seq,
       WorkerAction.broadcastEvent event]) := by
  unfold process_event
  rw [if_neg h]

/-! ## Claim theorems: record store -/

/-- Claim C8: round-trip through the record store — for every sequence of
records written via append and/or appendMany, a subsequent readAll returns
all of them, in write order, with every field unchanged except createdAt,
which is UTC-normalized (naive timestamps get tzinfo=UTC attached; aware
timestamps are converted to UTC). -/
theorem storage_round_trip (store : List FeedbackRecord) (ops : List StoreOp) :
    read_all_feedback (apply_store_ops store ops) =
      read_all_feedback store ++ (written_records ops).map normalize_record
    ∧ ∀ r : FeedbackRecord,
        (normalize_record r).id = r.id ∧
        (normalize_record r).text = r.text ∧
        (normalize_record r).userId = r.userId ∧
        (normalize_record r).sentiment = r.sentiment ∧
        (normalize_record r).keyTopics = r.keyTopics ∧
        (normalize_record r).actionRequired = r.actionRequired ∧
        (normalize_record r).summary = r.summary ∧
        (normalize_record r).createdAt = normalize_created_at r.createdAt := by
  constructor
  · induction ops generalizing store with
    | nil => simp [apply_store_ops, written_records, read_all_feedback]
    | cons op rest ih =>
      cases op with
      | append r =>
        simp only [apply_store_ops, written_records, List.map_cons]
        rw [ih, append_feedback, read_all_feedback, read_all_feedback]
        simp
      | appendMany rs =>
        simp only [apply_store_ops, written_records, List.map_append]
        rw [ih, append_feedback_many, read_all_feedback, read_all_feedback]
        cases rs with
        | nil => simp
        | cons r rs' => simp
  · intro r
    simp [normalize_record]

/-! ## Claim theorems: worker pool -/

/-- Claim C2: for every event processed (not skipped) by the worker pool,
the trace of side effects ends with the cursor update immediately followed
by the broadcast — the update is strictly before the broadcast, there is
exactly one broadcast and it happens for every event type, anything earlier
is a persist attempt — and the cursor store as of the broadcast satisfies
cursor[jobId] ≥ event.seq. -/
theorem cursor_before_broadcast (cursors : List (String × Int)) (freshId : String)
    (now : Int) (event : Event) (h : cursor_get cursors event.jobId < event.seq) :
    ∃ pre, (process_event cursors freshId now event).2 =
        pre ++ [WorkerAction.updateCursor event.jobId event.seq,
                WorkerAction.broadcastEvent event]
      ∧ (∀ a ∈ pre, ∃ r, a = WorkerAction.persist r)
      ∧ event.seq ≤ cursor_get
          (apply_cursor_actions cursors
            (pre ++ [WorkerAction.updateCursor event.jobId event.seq]))
          event.jobId := by
  have hskip : ¬ event.seq ≤ cursor_get cursors event.jobId := not_le.mpr h
  unfold process_event
  rw [if_neg hskip]
  by_cases ht : event.type = "item.analyzed"
  · refine ⟨[WorkerAction.persist (event_record freshId now event.payload)], ?_, ?_, ?_⟩
    · simp [ht]
    · intro a ha
      simp at ha
      exact ⟨_, ha⟩
    · rw [List.cons_append, List.nil_append, apply_cursor_actions_persist]
      show event.seq ≤ cursor_get (apply_cursor_actions cursors
        [WorkerAction.updateCursor event.jobId event.seq]) event.jobId
      simp only [apply_cursor_actions]
      rw [cursor_get_update_self]
  · refine ⟨[], ?_, ?_, ?_⟩
    · simp [ht]
    · intro a ha
      simp at ha
    · rw [List.nil_append]
      simp only [apply_cursor_actions]
      rw [cursor_get_update_self]

/-- Witness for claim C2 at a concrete input: a job.completed event with
seq 3 against an empty cursor store. -/
theorem cursor_before_broadcast_witness :
    cursor_get [] "jobA" < 3
    ∧ ∃ pre, (process_event [] "u" 0
          { jobId := "jobA", seq := 3, type := "job.completed", payload := {} }).2 =
        pre ++ [WorkerAction.updateCursor "jobA" 3,
                WorkerAction.broadcastEvent
                  { jobId := "jobA", seq := 3, type := "job.completed", payload := {} }]
      ∧ (∀ a ∈ pre, ∃ r, a = WorkerAction.persist r)
      ∧ (3 : Int) ≤ cursor_get
          (apply_cursor_actions [] (pre ++ [WorkerAction.updateCursor "jobA" 3]))
          "jobA" :=
  ⟨by decide, cursor_before_broadcast [] "u" 0
    { jobId := "jobA", seq := 3, type := "job.completed", payload := {} } (by decide)⟩

/-- Claim C3: processing the same (jobId, seq) event twice through the
worker pool is idempotent — a second delivery after the first completes is
skipped with no side effects (no record persisted, no cursor change, no
broadcast), the two runs together persist at most one record and broadcast
at most once, and whenever seq ≤ cursor.get(jobId) at the dedup check the
event is skipped entirely. -/
theorem duplicate_delivery_idempotent (cursors : List (String × Int))
    (f1 f2 : String) (n1 n2 : Int) (event : Event) :
    (process_event (process_event cursors f1 n1 event).1 f2 n2 event)
        = ((process_event cursors f1 n1 event).1, [])
    ∧ count_persist ((process_event cursors f1 n1 event).2 ++
        (process_event (process_event cursors f1 n1 event).1 f2 n2 event).2) ≤ 1
    ∧ count_broadcast ((process_event cursors f1 n1 event).2 ++
        (process_event (process_event cursors f1 n1 event).1 f2 n2 event).2) ≤ 1
    ∧ (event.seq ≤ cursor_get cursors event.jobId →
        process_event cursors f1 n1 event = (cursors, [])) := by
  by_cases hskip : event.seq ≤ cursor_get cursors event.jobId
  · have h1 : process_event cursors f1 n1 event = (cursors, []) :=
      process_event_skip cursors f1 n1 event hskip
    have h2 : process_event (process_event cursors f1 n1 event).1 f2 n2 event
        = ((process_event cursors f1 n1 event).1, []) := by
      rw [h1]
      exact process_event_skip cursors f2 n2 event hskip
    refine ⟨h2, ?_, ?_, fun _ => h1⟩
    · rw [h2, h1]
      simp [count_persist]
    · rw [h2, h1]
      simp [count_broadcast]
  · have h1 := process_event_run cursors f1 n1 event hskip
    have hcur : cursor_get (process_event cursors f1 n1 event).1 event.jobId
        = event.seq := by
      rw [h1]
      exact cursor_get_update_self cursors event.jobId event.seq
    have h2 : process_event (process_event cursors f1 n1 event).1 f2 n2 event
        = ((process_event cursors f1 n1 event).1, []) :=
      process_event_skip _ f2 n2 event (le_of_eq hcur.symm)
    refine ⟨h2, ?_, ?_, fun hc => absurd hc hskip⟩
    · rw [h2, h1]
      by_cases ht : event.type = "item.analyzed" <;>
        simp [ht, count_persist, List.filter_append]
    · rw [h2, h1]
      by_cases ht : event.type = "item.analyzed" <;>
        simp [ht, count_broadcast, List.filter_append]

/-- Witness for claim C3's conditional conjunct at a concrete input. -/
theorem duplicate_delivery_idempotent_witness :
    (process_event
        (process_event [("jobA", (2 : Int))] "u1" 0
          { jobId := "jobA", seq := 7, type := "item.analyzed", payload := {} }).1
        "u2" 1 { jobId := "jobA", seq := 7, type := "item.analyzed", payload := {} })
      = ((process_event [("jobA", (2 : Int))] "u1" 0
          { jobId := "jobA", seq := 7, type := "item.analyzed", payload := {} }).1, []) :=
  (duplicate_delivery_idempotent [("jobA", 2)] "u1" "u2" 0 1
    { jobId := "jobA", seq := 7, type := "item.analyzed", payload := {} }).1

/-- Claim C10 (implicit): an event whose seq is absent (default 0) or ≤ 0 is
always skipped entirely by the worker pool — no persist, no broadcast, no
cursor change — because the cursor store returns at least 0 for every jobId
(given the nonnegativity that the pool's own writes maintain). -/
theorem nonpositive_seq_always_skipped (cursors : List (String × Int))
    (freshId : String) (now : Int) (event : Event)
    (hc : cursors_nonneg cursors) (hs : event.seq ≤ 0) :
    process_event cursors freshId now event = (cursors, [])
    ∧ 0 ≤ cursor_get cursors event.jobId
    ∧ cursors_nonneg (process_event cursors freshId now event).1 := by
  have hge : 0 ≤ cursor_get cursors event.jobId := cursor_get_nonneg hc event.jobId
  have hskip : event.seq ≤ cursor_get cursors event.jobId := le_trans hs hge
  have h1 : process_event cursors freshId now event = (cursors, []) := by
    unfold process_event
    rw [if_pos hskip]
  exact ⟨h1, hge, by rw [h1]; exact hc⟩

/-- Witness for claim C10 at a concrete input: a never-seen job and an event
with the defaulted seq 0. -/
theorem nonpositive_seq_always_skipped_witness :
    cursors_nonneg [("jobB", (3 : Int))]
    ∧ process_event [("jobB", (3 : Int))] "u1" 0
        { jobId := "jobC", seq := 0, type := "item.analyzed", payload := {} }
      = ([("jobB", (3 : Int))], []) := by
  have hc : cursors_nonneg [("jobB", (3 : Int))] := by
    intro p hp
    simp at hp
    simp [hp]
  exact ⟨hc,
    (nonpositive_seq_always_skipped [("jobB", 3)] "u1" 0
      { jobId := "jobC", seq := 0, type := "item.analyzed", payload := {} }
      hc (by decide)).1⟩

/-! ## Claim theorems: WebSocket bridge -/

theorem foldl_max_init_le (l : List (String × Int)) (a : Int) :
    a ≤ l.foldl (fun acc q => max acc q.2) a := by
  induction l generalizing a with
  | nil => exact le_refl a
  | cons p rest ih => exact le_trans (le_max_left a p.2) (ih (max a p.2))

theorem foldl_max_mem_le {l : List (String × Int)} {q : String × Int}
    (hq : q ∈ l) (a : Int) : q.2 ≤ l.foldl (fun acc q => max acc q.2) a := by
  induction l generalizing a with
  | nil => simp at hq
  | cons p rest ih =>
    rcases List.mem_cons.mp hq with h | h
    · subst h
      exact le_trans (le_max_right a q.2) (foldl_max_init_le rest (max a q.2))
    · exact ih h (max a p.2)

theorem max_seq_ge_of_mem {l : List (String × Int)} {k : String} {v : Int}
    (h : (k, v) ∈ l) : v ≤ max_seq l := by
  cases l with
  | nil => simp at h
  | cons p rest =>
    rcases List.mem_cons.mp h with h | h
    · rw [max_seq]
      have : v = p.2 := by rw [← h]
      rw [this]
      exact foldl_max_init_le rest p.2
    · rw [max_seq]
      exact foldl_max_mem_le h p.2

theorem mem_cursor_update_self (l : List (String × Int)) (j : String) (s : Int) :
    (j, s) ∈ cursor_update l j s := by
  induction l with
  | nil => simp [cursor_update]
  | cons p rest ih =>
    obtain ⟨k, v⟩ := p
    by_cases hk : k = j
    · subst hk
      simp [cursor_update]
    · simp only [cursor_update, if_neg hk]
      exact List.mem_cons_of_mem _ ih

/-- Counterexample to claim C1 as stated: the bridge receives an event with
seq 5 for job "jobA" while the inbound queue (capacity 1) is full; no event
for any job was ever processed (there is no cursor at all), the event is
dropped (the queue is unchanged) — and yet the resume value
`maxSeq = max(lastSeqByJob values)` that the next reconnection would send is
5, not strictly less than the dropped event's seq, because the receive loop
records the seq before attempting the enqueue. -/
theorem dropped_event_resume_counterexample :
    (receive_event
        { lastSeqByJob := [],
          queue := [{ jobId := "jobA", seq := 1, type := "job.started", payload := {} }],
          queueMax := 1 }
        { jobId := "jobA", seq := 5, type := "item.analyzed", payload := {} }).queue
      = [{ jobId := "jobA", seq := 1, type := "job.started", payload := {} }]
    ∧ ¬ (max_seq (receive_event
        { lastSeqByJob := [],
          queue := [{ jobId := "jobA", seq := 1, type := "job.started", payload := {} }],
          queueMax := 1 }
        { jobId := "jobA", seq := 5, type := "item.analyzed", payload := {} }).lastSeqByJob
      < 5) := by
  constructor
  · rfl
  · decide

/-- Claim C1 amended: for every event received while the inbound queue is
full, the event is dropped (the queue is unchanged, and the bridge never
touches the worker pool's cursor store), but the in-memory lastSeqByJob map
— from which the resume frame of the next reconnection takes
`resumeFromSeq = maxSeq` — has already recorded the event, so that
`maxSeq ≥ event.seq`: the dropped event would not be redelivered by an
upstream that honors the resume frame. -/
theorem dropped_event_tracked_for_resume (s : BridgeState) (event : Event)
    (hfull : ¬ s.queue.length < s.queueMax) :
    (receive_event s event).queue = s.queue
    ∧ event.seq ≤ max_seq (receive_event s event).lastSeqByJob := by
  have hrw : receive_event s event =
      { s with
          lastSeqByJob :=
            cursor_update s.lastSeqByJob event.jobId
              (max ((s.lastSeqByJob.lookup event.jobId).getD 0) event.seq) } := by
    unfold receive_event
    rw [if_neg hfull]
  rw [hrw]
  refine ⟨rfl, ?_⟩
  have hmem := mem_cursor_update_self s.lastSeqByJob event.jobId
    (max ((s.lastSeqByJob.lookup event.jobId).getD 0) event.seq)
  exact le_trans (le_max_right _ _) (max_seq_ge_of_mem hmem)

/-- Witness for the amended claim C1 at a concrete input: a full queue of
capacity 1 and an event with seq 5. -/
theorem dropped_event_tracked_for_resume_witness :
    ¬ ((1 : Nat) < 1)
    ∧ ((receive_event
        { lastSeqByJob := [("jobB", (2 : Int))],
          queue := [{ jobId := "jobB", seq := 2, type := "job.started", payload := {} }],
          queueMax := 1 }
        { jobId := "jobA", seq := 5, type := "item.analyzed", payload := {} }).queue
      = [{ jobId := "jobB", seq := 2, type := "job.started", payload := {} }]
    ∧ (5 : Int) ≤ max_seq (receive_event
        { lastSeqByJob := [("jobB", (2 : Int))],
          queue := [{ jobId := "jobB", seq := 2, type := "job.started", payload := {} }],
          queueMax := 1 }
        { jobId := "jobA", seq := 5, type := "item.analyzed", payload := {} }).lastSeqByJob) :=
  ⟨by decide,
    dropped_event_tracked_for_resume
      { lastSeqByJob := [("jobB", (2 : Int))],
        queue := [{ jobId := "jobB", seq := 2, type := "job.started", payload := {} }],
        queueMax := 1 }
      { jobId := "jobA", seq := 5, type := "item.analyzed", payload := {} }
      (by decide)⟩

/-! ## Claim theorems: broadcaster -/

theorem map_fst_pair (l : List Nat) (m : String) :
    (l.map fun ws => (ws, m)).map Prod.fst = l := by
  induction l with
  | nil => rfl
  | cons c cs ih => simpa using ih

/-- Claim C9: after broadcast(event), every subscriber whose send succeeded
is still a member of the set and every subscriber whose send raised is no
longer a member; no new member appears; the event is serialized exactly once
— every attempt carries the one serialized message, one attempt per member
of the pre-broadcast snapshot — and each subscriber receives at most one
send attempt. -/
theorem broadcast_reaps_dead (serialize : Event → String) (sendOk : Nat → Bool)
    (clients : List Nat) (event : Event) (hnodup : clients.Nodup) :
    (∀ ws ∈ clients, sendOk ws = true →
      ws ∈ (broadcast_step serialize sendOk clients event).1)
    ∧ (∀ ws, sendOk ws = false →
      ws ∉ (broadcast_step serialize sendOk clients event).1)
    ∧ (∀ ws ∈ (broadcast_step serialize sendOk clients event).1, ws ∈ clients)
    ∧ (broadcast_step serialize sendOk clients event).2 =
        clients.map (fun ws => (ws, serialize event))
    ∧ (∀ ws, ((broadcast_step serialize sendOk clients event).2.map Prod.fst).count ws ≤ 1) := by
  refine ⟨?_, ?_, ?_, rfl, ?_⟩
  · intro ws hws hok
    simp only [broadcast_step, List.mem_filter]
    refine ⟨hws, ?_⟩
    simp [List.contains, List.mem_filter, hok]
  · intro ws hbad hmem
    simp only [broadcast_step, List.mem_filter] at hmem
    obtain ⟨hws, hnc⟩ := hmem
    have hmemdead : ws ∈ clients.filter fun w => !(sendOk w) :=
      List.mem_filter.mpr ⟨hws, by simp [hbad]⟩
    simp [List.contains, hmemdead] at hnc
  · intro ws hmem
    exact (List.mem_filter.mp hmem).1
  · intro ws
    rw [show ((broadcast_step serialize sendOk clients event).2.map Prod.fst) = clients
      from map_fst_pair clients (serialize event)]
    exact List.nodup_iff_count_le_one.mp hnodup ws

/-- Witness for claim C9 at a concrete input: three subscribers of which the
second raises on send. -/
theorem broadcast_reaps_dead_witness :
    ([1, 2, 3] : List Nat).Nodup
    ∧ ((2 : Nat) ∉ (broadcast_step (fun _ => "m") (fun ws => ws != 2) [1, 2, 3]
        { jobId := "j", seq := 1, type := "job.started", payload := {} }).1) :=
  ⟨by decide,
    (broadcast_reaps_dead (fun _ => "m") (fun ws => ws != 2) [1, 2, 3]
      { jobId := "j", seq := 1, type := "job.started", payload := {} }
      (by decide)).2.1 2 (by decide)⟩

/-! ## Claim theorems: LLM analyzer -/

/-- Claim C5: for every non-empty texts list, analyzeBatch either returns a
list of analyses of length exactly the number of texts (the predictor's
analyses post-processed in input order) or fails; a predictor result of the
wrong length fails with the validation-error kind; a length-1 input
delegates to the single-item analyze. -/
theorem analyze_batch_length (predictSingle : String → Except String RawAnalysis)
    (predictBatch : List String → Except String (List RawAnalysis))
    (texts : List String) (h : texts ≠ []) :
    (∀ l, analyze_feedback_batch predictSingle predictBatch texts = .ok l →
        l.length = texts.length)
    ∧ (∀ result, 2 ≤ texts.length → predictBatch texts = .ok result →
        result.length ≠ texts.length →
        analyze_feedback_batch predictSingle predictBatch texts =
          .error (.validationError texts.length result.length))
    ∧ (∀ result, 2 ≤ texts.length → predictBatch texts = .ok result →
        result.length = texts.length →
        analyze_feedback_batch predictSingle predictBatch texts =
          .ok (result.map analysis_of_raw))
    ∧ (∀ t, texts = [t] →
        analyze_feedback_batch predictSingle predictBatch texts =
          .ok [analyze_feedback predictSingle t]) := by
  match texts with
  | [] => exact absurd rfl h
  | [t] =>
    refine ⟨?_, ?_, ?_, ?_⟩
    · intro l hl
      simp only [analyze_feedback_batch] at hl
      cases hl
      rfl
    · intro result h2
      simp at h2
    · intro result h2
      simp at h2
    · intro t' ht
      cases ht
      rfl
  | t1 :: t2 :: ts =>
    refine ⟨?_, ?_, ?_, ?_⟩
    · intro l hl
      simp only [analyze_feedback_batch] at hl
      cases hpb : predictBatch (t1 :: t2 :: ts) with
      | error e => rw [hpb] at hl; simp at hl
      | ok result =>
        rw [hpb] at hl
        simp only at hl
        by_cases hlen : result.length = (t1 :: t2 :: ts).length
        · rw [if_neg (by simpa using hlen)] at hl
          cases hl
          simpa using hlen
        · rw [if_pos (by simpa using hlen)] at hl
          simp at hl
    · intro result h2 hpb hlen
      simp only [analyze_feedback_batch, hpb]
      rw [if_pos (by simpa using hlen)]
    · intro result h2 hpb hlen
      simp only [analyze_feedback_batch, hpb]
      rw [if_neg (by simpa using hlen)]
    · intro t' ht
      simp at ht

/-- Witness for claim C5 at a concrete input: two texts, a predictor
returning one analysis too few — the validation error fires. -/
theorem analyze_batch_length_witness :
    (["a", "b"] : List String) ≠ []
    ∧ analyze_feedback_batch (fun _ => .error "no api")
        (fun _ => .ok [{ sentiment := .positive, key_topics := [],
                          action_required := false, summary := "ok fine" }])
        ["a", "b"]
      = .error (.validationError 2 1) := by
  refine ⟨by decide, ?_⟩
  have h := (analyze_batch_length (fun _ => .error "no api")
    (fun _ => .ok [{ sentiment := .positive, key_topics := [],
                      action_required := false, summary := "ok fine" }])
    ["a", "b"] (by decide)).2.1
  exact h [{ sentiment := .positive, key_topics := [],
              action_required := false, summary := "ok fine" }]
    (by decide) rfl (by decide)

/-! ## Claim theorems: metrics -/

theorem floor_bucket_spec (t : Int) :
    floor_bucket t ≤ t ∧ t < floor_bucket t + 300 ∧ (300 : Int) ∣ floor_bucket t := by
  have h60 : t.fdiv 60 = t / 60 := Int.fdiv_eq_ediv t (by norm_num)
  have hq : 60 * (t / 60) + t % 60 = t := Int.ediv_add_emod t 60
  have hr1 : 0 ≤ t % 60 := Int.emod_nonneg t (by norm_num)
  have hr1L : t % 60 < 60 := Int.emod_lt_of_pos t (by norm_num)
  have hq5 : 5 * (t / 60 / 5) + t / 60 % 5 = t / 60 := Int.ediv_add_emod (t / 60) 5
  have hr2 : 0 ≤ t / 60 % 5 := Int.emod_nonneg (t / 60) (by norm_num)
  have hr2L : t / 60 % 5 < 5 := Int.emod_lt_of_pos (t / 60) (by norm_num)
  have hfb : floor_bucket t = 60 * (t / 60) - 60 * (t / 60 % 5) := by
    unfold floor_bucket floor_minute minute_of
    rw [h60, Int.emod_emod_of_dvd (t / 60) (by norm_num)]
  refine ⟨by omega, by omega, ⟨t / 60 / 5, by omega⟩⟩

theorem bump_at_length (s : Sentiment) (bs : List TimeBucket) (n : Nat) :
    (bump_at s bs n).length = bs.length := by
  induction bs generalizing n with
  | nil => rfl
  | cons b rest ih =>
    cases n with
    | zero => rfl
    | succ m => simpa [bump_at] using ih m

theorem bump_at_getD_eq (s : Sentiment) (bs : List TimeBucket) (n : Nat)
    (d : TimeBucket) (h : n < bs.length) :
    (bump_at s bs n).getD n d = bump_bucket s (bs.getD n d) := by
  induction bs generalizing n with
  | nil => simp at h
  | cons b rest ih =>
    cases n with
    | zero => rfl
    | succ m => simpa [bump_at] using ih m (by simpa using h)

theorem bump_at_getD_ne (s : Sentiment) (bs : List TimeBucket) (n m : Nat)
    (d : TimeBucket) (h : n ≠ m) :
    (bump_at s bs n).getD m d = bs.getD m d := by
  induction bs generalizing n m with
  | nil => cases n <;> rfl
  | cons b rest ih =>
    cases n with
    | zero =>
      cases m with
      | zero => exact absurd rfl h
      | succ m' => rfl
    | succ n' =>
      cases m with
      | zero => rfl
      | succ m' => simpa [bump_at] using ih n' m' (by omega)

theorem bump_at_getD_bucket (s : Sentiment) (bs : List TimeBucket) (n i : Nat)
    (d : TimeBucket) : ((bump_at s bs n).getD i d).bucket = (bs.getD i d).bucket := by
  by_cases hn : n = i
  · subst hn
    by_cases hlt : n < bs.length
    · rw [bump_at_getD_eq s bs n d hlt]
      rfl
    · have h1 : (bump_at s bs n).getD n d = d := by
        apply List.getD_eq_default
        rw [bump_at_length]
        omega
      have h2 : bs.getD n d = d := by
        apply List.getD_eq_default
        omega
      rw [h1, h2]
  · rw [bump_at_getD_ne s bs n i d hn]

theorem tally_record_length (ws we : Int) (bs : List TimeBucket) (r : FeedbackRecord) :
    (tally_record ws we bs r).length = bs.length := by
  simp only [tally_record]
  split_ifs <;> simp [bump_at_length]

theorem tally_record_bucket (ws we : Int) (bs : List TimeBucket) (r : FeedbackRecord)
    (i : Nat) (d : TimeBucket) :
    ((tally_record ws we bs r).getD i d).bucket = (bs.getD i d).bucket := by
  simp only [tally_record]
  split_ifs with h1 h2
  · exact bump_at_getD_bucket r.sentiment bs _ i d
  · rfl
  · rfl

theorem tally_record_count (ws : Int) (bs : List TimeBucket) (r : FeedbackRecord)
    (hlen : bs.length = bucket_count) (i : Nat) (hi : i < bucket_count) :
    ((tally_record ws (ws + 3300) bs r).getD i default_bucket).count =
      (bs.getD i default_bucket).count +
      (if ws + 300 * i ≤ utc_seconds r.createdAt ∧
          utc_seconds r.createdAt < ws + 300 * i + 300 then 1 else 0) := by
  have hbc : bucket_count = 12 := rfl
  simp only [tally_record]
  have h300 : (utc_seconds r.createdAt - ws).fdiv 300 =
      (utc_seconds r.createdAt - ws) / 300 := Int.fdiv_eq_ediv _ (by norm_num)
  have hdm : 300 * ((utc_seconds r.createdAt - ws) / 300) +
      (utc_seconds r.createdAt - ws) % 300 = utc_seconds r.createdAt - ws :=
    Int.ediv_add_emod _ 300
  have hm0 : 0 ≤ (utc_seconds r.createdAt - ws) % 300 := Int.emod_nonneg _ (by norm_num)
  have hm1 : (utc_seconds r.createdAt - ws) % 300 < 300 := Int.emod_lt_of_pos _ (by norm_num)
  by_cases hc : ws + 300 * i ≤ utc_seconds r.createdAt ∧
      utc_seconds r.createdAt < ws + 300 * i + 300
  · rw [if_pos hc]
    have hA : ws ≤ utc_seconds r.createdAt ∧
        utc_seconds r.createdAt ≤ (ws + 3300) + 300 := by
      constructor <;> omega
    have hfd : (utc_seconds r.createdAt - ws).fdiv 300 = (i : Int) := by
      rw [h300]
      omega
    have hB : 0 ≤ (utc_seconds r.createdAt - ws).fdiv 300 ∧
        (utc_seconds r.createdAt - ws).fdiv 300 < (bucket_count : Int) := by
      rw [hfd]
      constructor <;> [omega; exact_mod_cast hi]
    rw [if_pos hA, if_pos hB, hfd]
    rw [show ((i : Int)).toNat = i from rfl]
    rw [bump_at_getD_eq _ _ _ _ (by omega)]
    rfl
  · rw [if_neg hc]
    split_ifs with hA hB
    · have hne : ((utc_seconds r.createdAt - ws).fdiv 300).toNat ≠ i := by
        rw [h300]
        rw [h300] at hB
        intro heq
        omega
      rw [bump_at_getD_ne _ _ _ _ _ hne]
      omega
    · omega
    · omega

theorem fold_tally_length (ws we : Int) (records : List FeedbackRecord)
    (bs : List TimeBucket) :
    (records.foldl (tally_record ws we) bs).length = bs.length := by
  induction records generalizing bs with
  | nil => rfl
  | cons r rest ih =>
    rw [List.foldl_cons, ih, tally_record_length]

theorem fold_tally_bucket (ws we : Int) (records : List FeedbackRecord)
    (bs : List TimeBucket) (i : Nat) (d : TimeBucket) :
    ((records.foldl (tally_record ws we) bs).getD i d).bucket = (bs.getD i d).bucket := by
  induction records generalizing bs with
  | nil => rfl
  | cons r rest ih =>
    rw [List.foldl_cons, ih, tally_record_bucket]

theorem fold_tally_count (ws : Int) (records : List FeedbackRecord)
    (bs : List TimeBucket) (hlen : bs.length = bucket_count) (i : Nat)
    (hi : i < bucket_count) :
    ((records.foldl (tally_record ws (ws + 3300)) bs).getD i default_bucket).count =
      (bs.getD i default_bucket).count +
      (records.filter fun r =>
        decide (ws + 300 * i ≤ utc_seconds r.createdAt ∧
          utc_seconds r.createdAt < ws + 300 * i + 300)).length := by
  induction records generalizing bs with
  | nil => simp
  | cons r rest ih =>
    rw [List.foldl_cons]
    rw [ih (tally_record ws (ws + 3300) bs r) (by rw [tally_record_length]; exact hlen)]
    rw [tally_record_count ws bs r hlen i hi]
    rw [List.filter_cons]
    by_cases hc : ws + 300 * i ≤ utc_seconds r.createdAt ∧
        utc_seconds r.createdAt < ws + 300 * i + 300
    · rw [if_pos hc, if_pos (decide_eq_true hc), List.length_cons]
      omega
    · rw [if_neg hc, if_neg (by simpa using hc)]
      omega

theorem init_buckets_length (ws : Int) : (init_buckets ws).length = bucket_count := by
  unfold init_buckets
  rw [List.length_map, List.length_range]

theorem init_buckets_getD (ws : Int) (i : Nat) (hi : i < bucket_count) :
    (init_buckets ws).getD i default_bucket =
      { bucket := fmt_hhmm (ws + 300 * i), count := 0,
        positive := 0, neutral := 0, negative := 0 } := by
  unfold init_buckets
  rw [List.getD_eq_getElem?_getD, List.getElem?_map, List.getElem?_range hi]
  rfl

/-- Claim C7: for every records list and every now, the submissionsByTime
metric has exactly 12 entries; the i-th entry's label is the "HH:MM" UTC
rendering of `floor(now) - 55min + 5min*i`, a 5-minute-aligned instant of
the trailing hour whose last bucket starts at the 5-minute floor of now
(floor(now) ≤ now < floor(now)+5min); and the i-th count is exactly the
number of records whose UTC-normalized createdAt lies in the half-open
interval [start, start+5min) of that bucket, so records outside the window
are counted nowhere. -/
theorem submissions_by_time_spec (now : Int) (records : List FeedbackRecord) :
    (submissions_by_time now records).length = 12
    ∧ floor_bucket now ≤ now ∧ now < floor_bucket now + 300
    ∧ (∀ i : Nat, i < 12 →
        (300 : Int) ∣ (floor_bucket now - 3300 + 300 * i)
        ∧ ((submissions_by_time now records).getD i default_bucket).bucket =
            fmt_hhmm (floor_bucket now - 3300 + 300 * i)
        ∧ ((submissions_by_time now records).getD i default_bucket).count =
            (records.filter fun r =>
              decide (floor_bucket now - 3300 + 300 * i ≤ utc_seconds r.createdAt ∧
                utc_seconds r.createdAt < floor_bucket now - 3300 + 300 * i + 300)).length) := by
  obtain ⟨hle, hlt, hdvd⟩ := floor_bucket_spec now
  have hsub : submissions_by_time now records =
      records.foldl
        (tally_record (floor_bucket now - 3300) ((floor_bucket now - 3300) + 3300))
        (init_buckets (floor_bucket now - 3300)) := by
    simp only [submissions_by_time]
    norm_num [bucket_count]
  have hbc : (12 : Nat) = bucket_count := rfl
  refine ⟨?_, hle, hlt, ?_⟩
  · rw [hsub, fold_tally_length, init_buckets_length]
    rfl
  · intro i hi
    refine ⟨?_, ?_, ?_⟩
    · obtain ⟨c, hc⟩ := hdvd
      exact ⟨c - 11 + i, by omega⟩
    · rw [hsub, fold_tally_bucket, init_buckets_getD _ i (hbc ▸ hi)]
    · rw [hsub, fold_tally_count _ records _ (init_buckets_length _) i (hbc ▸ hi)]
      rw [init_buckets_getD _ i (hbc ▸ hi)]
      simp

/-- Witness for claim C7 at a concrete input: one record 50 seconds after
the floor of now, counted in the last bucket. -/
theorem submissions_by_time_spec_witness :
    (submissions_by_time 3700
      [{ id := "r1", text := "t", userId := none, sentiment := Sentiment.positive,
         keyTopics := [], actionRequired := false, summary := "s",
         createdAt := { wall := 3650, tz := some 0 } }]).length = 12
    ∧ ((11 : Nat) < 12)
    ∧ ((submissions_by_time 3700
      [{ id := "r1", text := "t", userId := none, sentiment := Sentiment.positive,
         keyTopics := [], actionRequired := false, summary := "s",
         createdAt := { wall := 3650, tz := some 0 } }]).getD 11 default_bucket).bucket
      = fmt_hhmm (floor_bucket 3700 - 3300 + 300 * 11) := by
  have h := submissions_by_time_spec 3700
    [{ id := "r1", text := "t", userId := none, sentiment := Sentiment.positive,
       keyTopics := [], actionRequired := false, summary := "s",
       createdAt := { wall := 3650, tz := some 0 } }]
  exact ⟨h.1, by decide, (h.2.2.2 11 (by decide)).2.1⟩

/-! ## Claim theorems: bulk collect positional-zip refinement -/

theorem prep_items_texts_length (now : PyDateTime) (start : Nat) (l : List BulkItem) :
    (prep_items now start l).1.length = (prep_items now start l).2.1.length := by
  induction l generalizing start with
  | nil => rfl
  | cons item rest ih =>
    simp only [prep_items]
    split_ifs with h
    · exact ih (start + 1)
    · simpa using ih (start + 1)

theorem prep_items_meta_index_ge (now : PyDateTime) (start : Nat) (l : List BulkItem) :
    ∀ m ∈ (prep_items now start l).2.1, start ≤ m.index := by
  induction l generalizing start with
  | nil => intro m hm; simp [prep_items] at hm
  | cons item rest ih =>
    intro m hm
    simp only [prep_items] at hm
    split_ifs at hm with h
    · exact le_trans (Nat.le_succ start) (ih (start + 1) m hm)
    · rcases List.mem_cons.mp hm with hm | hm
      · rw [hm]
      · exact le_trans (Nat.le_succ start) (ih (start + 1) m hm)

theorem prep_items_meta_pairwise (now : PyDateTime) (start : Nat) (l : List BulkItem) :
    (prep_items now start l).2.1.Pairwise (fun a b => a.index < b.index) := by
  induction l generalizing start with
  | nil => simp [prep_items]
  | cons item rest ih =>
    simp only [prep_items]
    split_ifs with h
    · exact ih (start + 1)
    · refine List.Pairwise.cons ?_ (ih (start + 1))
      intro m hm
      have := prep_items_meta_index_ge now (start + 1) rest m hm
      simpa using this

theorem prep_items_meta_nodup (now : PyDateTime) (start : Nat) (l : List BulkItem) :
    (prep_items now start l).2.1.Nodup := by
  refine List.Pairwise.imp ?_ (prep_items_meta_pairwise now start l)
  intro a b hlt heq
  rw [heq] at hlt
  exact lt_irrefl _ hlt

theorem prepare_batches_inv (now : PyDateTime) (cs : List (List BulkItem)) :
    ∀ start, ∀ b ∈ (prepare_batches now start cs).1,
      b.texts.length = b.metadata.length ∧ b.metadata.Nodup := by
  induction cs with
  | nil => intro start b hb; simp [prepare_batches] at hb
  | cons c rest ih =>
    intro start b hb
    simp only [prepare_batches] at hb
    split_ifs at hb with h
    · exact ih (start + c.length) b hb
    · rcases List.mem_cons.mp hb with hb | hb
      · rw [hb]
        exact ⟨prep_items_texts_length now start c, prep_items_meta_nodup now start c⟩
      · exact ih (start + c.length) b hb

theorem collect_ok_eq_positional (fresh : Nat → String) (texts : List String)
    (metadata : List BulkMeta) (pairs : List (BulkMeta × Analysis)) (i : Nat)
    (h : ∀ j (hj : j < pairs.length),
      List.indexOf (pairs.get ⟨j, hj⟩).1 metadata = i + j ∧ i + j < texts.length) :
    collect_ok fresh texts metadata pairs = collect_ok_positional fresh texts i pairs := by
  induction pairs generalizing i with
  | nil => rfl
  | cons p rest ih =>
    obtain ⟨meta, analysis⟩ := p
    have h0 := h 0 (by simp)
    have hidx : List.indexOf meta metadata = i := by simpa using h0.1
    have hlt : i < texts.length := by simpa using h0.2
    have hrest : ∀ j (hj : j < rest.length),
        List.indexOf (rest.get ⟨j, hj⟩).1 metadata = (i + 1) + j ∧
          (i + 1) + j < texts.length := by
      intro j hj
      have := h (j + 1) (by simpa using Nat.succ_lt_succ hj)
      constructor
      · rw [show (i + 1) + j = i + (j + 1) by omega]
        exact this.1
      · rw [show (i + 1) + j = i + (j + 1) by omega]
        exact this.2
    simp only [collect_ok, collect_ok_positional]
    rw [ih (i + 1) hrest, hidx, if_pos hlt]

theorem collect_ok_positional_getD (fresh : Nat → String) (texts : List String)
    (pairs : List (BulkMeta × Analysis)) (i : Nat) :
    (collect_ok_positional fresh texts i pairs).1.length = pairs.length ∧
    ∀ j (hj : j < pairs.length),
      (collect_ok_positional fresh texts i pairs).1.getD j default_record =
        bulk_record fresh texts (i + j) (pairs.get ⟨j, hj⟩).1 (pairs.get ⟨j, hj⟩).2 := by
  induction pairs generalizing i with
  | nil => exact ⟨rfl, by intro j hj; simp at hj⟩
  | cons p rest ih =>
    obtain ⟨meta, analysis⟩ := p
    obtain ⟨ihlen, ihget⟩ := ih (i + 1)
    refine ⟨by simpa [collect_ok_positional] using ihlen, ?_⟩
    intro j hj
    cases j with
    | zero => simp [collect_ok_positional]
    | succ j' =>
      have hj' : j' < rest.length := by simpa using hj
      have := ihget j' hj'
      simp only [collect_ok_positional, List.getD_cons_succ]
      rw [this]
      rw [show (i + 1) + j' = i + (j' + 1) by omega]
      rfl

/-- Claim C4: in the collect phase, for every prepared batch and every
success envelope over it, the source's metadata.index(meta) text lookup
coincides with the positional zip the spec prescribes — metadata entries of
a prepared batch carry pairwise-distinct index values, so collect equals
the positional collect, and the j-th record built is
bulk_record fresh texts j metadata[j] analyses[j]: its text is texts[j],
its analysis fields come from analyses[j], and its id comes from item.id if
present (and non-empty) else the fresh identifier. -/
theorem bulk_collect_positional (now : PyDateTime) (bs : Nat) (items : List BulkItem)
    (fresh : Nat → String) (b : PreparedBatch)
    (hb : b ∈ (prepare_batches now 0 (chunk_list bs items)).1)
    (analyses : List Analysis) (hlen : analyses.length = b.texts.length) :
    collect_result fresh (BatchResult.ok b.texts b.metadata analyses) =
      collect_ok_positional fresh b.texts 0 (b.metadata.zip analyses)
    ∧ ∀ j (hj : j < (b.metadata.zip analyses).length),
        (collect_result fresh (BatchResult.ok b.texts b.metadata analyses)).1.getD
            j default_record =
          bulk_record fresh b.texts j ((b.metadata.zip analyses).get ⟨j, hj⟩).1
            ((b.metadata.zip analyses).get ⟨j, hj⟩).2 := by
  obtain ⟨htl, hnd⟩ := prepare_batches_inv now (chunk_list bs items) 0 b hb
  have hzl : (b.metadata.zip analyses).length = b.metadata.length := by
    rw [List.length_zip, hlen, htl]
    exact min_self _
  have hmain : collect_result fresh (BatchResult.ok b.texts b.metadata analyses) =
      collect_ok_positional fresh b.texts 0 (b.metadata.zip analyses) := by
    show collect_ok fresh b.texts b.metadata (b.metadata.zip analyses) =
      collect_ok_positional fresh b.texts 0 (b.metadata.zip analyses)
    apply collect_ok_eq_positional
    intro j hj
    have hjm : j < b.metadata.length := by omega
    have hja : j < analyses.length := by omega
    have hget : ((b.metadata.zip analyses).get ⟨j, hj⟩).1 = b.metadata.get ⟨j, hjm⟩ := by
      simp [List.get_eq_getElem, List.getElem_zip]
    rw [hget]
    constructor
    · rw [Nat.zero_add]
      simpa [List.get_eq_getElem] using List.indexOf_getElem hnd j hjm
    · omega
  refine ⟨hmain, ?_⟩
  intro j hj
  rw [hmain]
  have := (collect_ok_positional_getD fresh b.texts (b.metadata.zip analyses) 0).2 j hj
  rw [this]
  rw [Nat.zero_add]

/-- Witness for claim C4 at a concrete input: a two-item upload in one
batch; the second record's text is the second batch text. -/
theorem bulk_collect_positional_witness :
    ({ texts := ["good care", "long wait"],
       metadata :=
        [{ index := 0, item := { text := some "good care" }, userId := none,
           createdAt := { wall := 0, tz := some 0 } },
         { index := 1, item := { text := some "long wait" }, userId := none,
           createdAt := { wall := 0, tz := some 0 } }] } : PreparedBatch)
      ∈ (prepare_batches { wall := 0, tz := some 0 } 0
          (chunk_list 10
            [{ text := some "good care" }, { text := some "long wait" }])).1
    ∧ (collect_result (fun n => "u" ++ toString n)
        (BatchResult.ok ["good care", "long wait"]
          [{ index := 0, item := { text := some "good care" }, userId := none,
             createdAt := { wall := 0, tz := some 0 } },
           { index := 1, item := { text := some "long wait" }, userId := none,
             createdAt := { wall := 0, tz := some 0 } }]
          [{ sentiment := Sentiment.positive, keyTopics := [], actionRequired := false,
             summary := "praise" },
           { sentiment := Sentiment.negative, keyTopics := [], actionRequired := true,
             summary := "complaint" }])).1.getD 1 default_record
      = bulk_record (fun n => "u" ++ toString n) ["good care", "long wait"] 1
          { index := 1, item := { text := some "long wait" }, userId := none,
            createdAt := { wall := 0, tz := some 0 } }
          { sentiment := Sentiment.negative, keyTopics := [], actionRequired := true,
            summary := "complaint" } := by
  have hb : ({ texts := ["good care", "long wait"],
               metadata :=
                [{ index := 0, item := { text := some "good care" }, userId := none,
                   createdAt := { wall := 0, tz := some 0 } },
                 { index := 1, item := { text := some "long wait" }, userId := none,
                   createdAt := { wall := 0, tz := some 0 } }] } : PreparedBatch)
      ∈ (prepare_batches { wall := 0, tz := some 0 } 0
          (chunk_list 10
            [{ text := some "good care" }, { text := some "long wait" }])).1 := by
    decide
  refine ⟨hb, ?_⟩
  have h := (bulk_collect_positional { wall := 0, tz := some 0 } 10
    [{ text := some "good care" }, { text := some "long wait" }]
    (fun n => "u" ++ toString n) _ hb
    [{ sentiment := Sentiment.positive, keyTopics := [], actionRequired := false,
       summary := "praise" },
     { sentiment := Sentiment.negative, keyTopics := [], actionRequired := true,
       summary := "complaint" }] (by decide)).2 1 (by decide)
  rw [h]
  rfl

/-! ## Claim theorems: bulk upload accounting -/

theorem perm_shuffle (a b c d : List Nat) :
    List.Perm ((a ++ b) ++ (c ++ d)) ((a ++ c) ++ (b ++ d)) := by
  have h1 : List.Perm ((b ++ c) ++ d) ((c ++ b) ++ d) :=
    List.perm_append_comm.append (List.Perm.refl d)
  have h2 : List.Perm (b ++ (c ++ d)) (c ++ (b ++ d)) := by
    rw [← List.append_assoc, ← List.append_assoc]
    exact h1
  have h3 : List.Perm (a ++ (b ++ (c ++ d))) (a ++ (c ++ (b ++ d))) := h2.append_left a
  rw [List.append_assoc, List.append_assoc]
  exact h3

theorem prep_items_count (now : PyDateTime) (start : Nat) (l : List BulkItem) :
    (prep_items now start l).2.1.length + (prep_items now start l).2.2.length = l.length := by
  induction l generalizing start with
  | nil => rfl
  | cons item rest ih =>
    have hih := ih (start + 1)
    simp only [prep_items]
    split_ifs with h
    · simp only [List.length_cons]
      omega
    · simp only [List.length_cons]
      omega

theorem prep_items_index_perm (now : PyDateTime) (start : Nat) (l : List BulkItem) :
    List.Perm
      ((prep_items now start l).2.1.map BulkMeta.index ++
       (prep_items now start l).2.2.map BulkFailure.index)
      (List.range' start l.length) := by
  induction l generalizing start with
  | nil => simp [prep_items]
  | cons item rest ih =>
    simp only [prep_items, List.length_cons, List.range'_succ]
    split_ifs with h
    · refine List.Perm.trans List.perm_middle ?_
      exact (ih (start + 1)).cons start
    · simp only [List.map_cons, List.cons_append]
      exact (ih (start + 1)).cons start

theorem chunk_fuel_flatten (bs : Nat) (fuel : Nat) (l : List BulkItem) :
    (chunk_fuel bs fuel l).flatten = l := by
  induction fuel generalizing l with
  | zero =>
    cases l with
    | nil => rfl
    | cons x xs => simp [chunk_fuel]
  | succ fuel ih =>
    cases l with
    | nil => rfl
    | cons x xs =>
      simp only [chunk_fuel, List.flatten_cons, ih]
      rw [List.cons_append, List.take_append_drop]

theorem chunk_list_flatten (bs : Nat) (l : List BulkItem) :
    (chunk_list bs l).flatten = l :=
  chunk_fuel_flatten bs l.length l

theorem prepare_batches_index_perm (now : PyDateTime) (cs : List (List BulkItem)) :
    ∀ start,
      List.Perm
        (((prepare_batches now start cs).1.map
            (fun b => b.metadata.map BulkMeta.index)).flatten ++
          (prepare_batches now start cs).2.map BulkFailure.index)
        (List.range' start (cs.map List.length).sum) := by
  induction cs with
  | nil => intro start; simp [prepare_batches]
  | cons c rest ih =>
    intro start
    simp only [prepare_batches, List.map_cons, List.sum_cons]
    have hrange : List.range' start (c.length + (rest.map List.length).sum) =
        List.range' start c.length ++
          List.range' (start + c.length) (rest.map List.length).sum := by
      rw [List.range'_append_1, Nat.add_comm c.length]
    rw [hrange]
    have hperm := prep_items_index_perm now start c
    have hihp := ih (start + c.length)
    split_ifs with h
    · have hmeta : (prep_items now start c).2.1 = [] := by
        have hlen := prep_items_texts_length now start c
        rw [List.isEmpty_iff] at h
        rw [h] at hlen
        exact List.eq_nil_of_length_eq_zero hlen.symm
      rw [hmeta] at hperm
      simp only [List.map_nil, List.nil_append] at hperm
      simp only [List.map_append]
      refine List.Perm.trans ?_ (hperm.append hihp)
      have := perm_shuffle []
        (((prepare_batches now (start + c.length) rest).1.map
          (fun b => b.metadata.map BulkMeta.index)).flatten)
        ((prep_items now start c).2.2.map BulkFailure.index)
        ((prepare_batches now (start + c.length) rest).2.map BulkFailure.index)
      simpa using this
    · simp only [List.map_cons, List.flatten_cons, List.map_append]
      refine List.Perm.trans ?_ (hperm.append hihp)
      exact perm_shuffle _ _ _ _

theorem collect_ok_index_perm (fresh : Nat → String) (texts : List String)
    (metadata : List BulkMeta) (pairs : List (BulkMeta × Analysis)) :
    List.Perm
      ((collect_ok fresh texts metadata pairs).2.1.map BulkSuccess.index ++
       (collect_ok fresh texts metadata pairs).2.2.map BulkFailure.index)
      (pairs.map (fun p => p.1.index)) := by
  induction pairs with
  | nil => simp [collect_ok]
  | cons p rest ih =>
    obtain ⟨meta, analysis⟩ := p
    simp only [collect_ok, List.map_cons]
    split_ifs with h
    · simp only [List.map_cons, List.cons_append]
      exact ih.cons meta.index
    · refine List.Perm.trans List.perm_middle ?_
      exact ih.cons meta.index

theorem collect_run_index_perm (fresh : Nat → String)
    (runBatch : List String → Except String (List Analysis))
    (pbs : List PreparedBatch)
    (hok : ∀ b ∈ pbs, b.texts.length = b.metadata.length)
    (hrun : ∀ ts as, runBatch ts = .ok as → as.length = ts.length) :
    List.Perm
      ((collect_all fresh (run_batches runBatch pbs)).2.1.map BulkSuccess.index ++
       (collect_all fresh (run_batches runBatch pbs)).2.2.map BulkFailure.index)
      ((pbs.map (fun b => b.metadata.map BulkMeta.index)).flatten) := by
  induction pbs with
  | nil => simp [run_batches, collect_all]
  | cons b rest ih =>
    have hihp := ih (fun x hx => hok x (List.mem_cons_of_mem b hx))
    have hhead : List.Perm
        ((collect_result fresh (match runBatch b.texts with
          | .ok analyses => BatchResult.ok b.texts b.metadata analyses
          | .error e => BatchResult.failed b.metadata e)).2.1.map BulkSuccess.index ++
         (collect_result fresh (match runBatch b.texts with
          | .ok analyses => BatchResult.ok b.texts b.metadata analyses
          | .error e => BatchResult.failed b.metadata e)).2.2.map BulkFailure.index)
        (b.metadata.map BulkMeta.index) := by
      cases hrb : runBatch b.texts with
      | ok analyses =>
        simp only [collect_result]
        have hlen : b.metadata.length ≤ analyses.length := by
          rw [hrun b.texts analyses hrb, hok b (List.mem_cons_self b rest)]
        have hfst : (b.metadata.zip analyses).map (fun p => p.1.index) =
            b.metadata.map BulkMeta.index := by
          have h1 : ((b.metadata.zip analyses).map Prod.fst).map BulkMeta.index =
              b.metadata.map BulkMeta.index := by
            rw [List.map_fst_zip b.metadata analyses hlen]
          rw [← h1, List.map_map]
          rfl
        rw [← hfst]
        exact collect_ok_index_perm fresh b.texts b.metadata (b.metadata.zip analyses)
      | error e =>
        simp only [collect_result, List.map_nil, List.nil_append, List.map_map]
        have : (BulkFailure.index ∘ fun m =>
            ({ index := m.index, error := "Batch error: " ++ e } : BulkFailure)) =
            BulkMeta.index := rfl
        rw [this]
    simp only [run_batches, List.map_cons, List.flatten_cons]
    simp only [collect_all, List.map_append]
    refine List.Perm.trans (perm_shuffle _ _ _ _) ?_
    refine List.Perm.append ?_ ?_
    · exact hhead
    · simpa [run_batches] using hihp

theorem prep_items_missing (now : PyDateTime) (l : List BulkItem) :
    ∀ start i, i < l.length → eff_text (l.getD i default_item) = "" →
      ({ index := start + i, error := "Missing text" } : BulkFailure) ∈
        (prep_items now start l).2.2 := by
  induction l with
  | nil => intro start i hi; simp at hi
  | cons item rest ih =>
    intro start i hi htext
    simp only [prep_items]
    cases i with
    | zero =>
      simp only [List.getD_cons_zero] at htext
      rw [if_pos htext]
      simp
    | succ i' =>
      have hi' : i' < rest.length := by simpa using hi
      have hmem := ih (start + 1) i' hi' (by simpa using htext)
      have hidx : start + 1 + i' = start + (i' + 1) := by omega
      rw [hidx] at hmem
      split_ifs with h
      · exact List.mem_cons_of_mem _ hmem
      · exact hmem

theorem prepare_batches_missing (now : PyDateTime) (cs : List (List BulkItem)) :
    ∀ start i, i < cs.flatten.length → eff_text (cs.flatten.getD i default_item) = "" →
      ({ index := start + i, error := "Missing text" } : BulkFailure) ∈
        (prepare_batches now start cs).2 := by
  induction cs with
  | nil => intro start i hi; simp at hi
  | cons c rest ih =>
    intro start i hi htext
    simp only [List.flatten_cons] at hi htext
    simp only [prepare_batches]
    by_cases hc : i < c.length
    · have htext' : eff_text (c.getD i default_item) = "" := by
        rw [List.getD_eq_getElem?_getD, List.getElem?_append_left hc] at htext
        rw [List.getD_eq_getElem?_getD]
        exact htext
      exact List.mem_append_left _ (prep_items_missing now c start i hc htext')
    · push_neg at hc
      have hlen : i - c.length < rest.flatten.length := by
        rw [List.length_append] at hi
        omega
      have htext' : eff_text (rest.flatten.getD (i - c.length) default_item) = "" := by
        rw [List.getD_eq_getElem?_getD, List.getElem?_append_right hc] at htext
        rw [List.getD_eq_getElem?_getD]
        exact htext
      have hmem := ih (start + c.length) (i - c.length) hlen htext'
      have hidx : start + c.length + (i - c.length) = start + i := by omega
      rw [hidx] at hmem
      exact List.mem_append_right _ hmem

theorem collect_all_batch_error (fresh : Nat → String)
    (runBatch : List String → Except String (List Analysis))
    (pbs : List PreparedBatch) :
    ∀ b ∈ pbs, ∀ e, runBatch b.texts = .error e →
      ∀ m ∈ b.metadata,
        ({ index := m.index, error := "Batch error: " ++ e } : BulkFailure) ∈
          (collect_all fresh (run_batches runBatch pbs)).2.2 := by
  induction pbs with
  | nil => intro b hb; simp at hb
  | cons b0 rest ih =>
    intro b hb e hrb m hm
    simp only [run_batches, List.map_cons, collect_all]
    rcases List.mem_cons.mp hb with hb | hb
    · subst hb
      rw [hrb]
      simp only [collect_result]
      refine List.mem_append_left _ ?_
      exact List.mem_map.mpr ⟨m, hm, rfl⟩
    · refine List.mem_append_right _ ?_
      simpa [run_batches] using ih b hb e hrb m hm

theorem prep_items_nonempty (now : PyDateTime) (l : List BulkItem) :
    ∀ start i, i < l.length → eff_text (l.getD i default_item) ≠ "" →
      ∃ m ∈ (prep_items now start l).2.1, m.index = start + i := by
  induction l with
  | nil => intro start i hi; simp at hi
  | cons item rest ih =>
    intro start i hi htext
    simp only [prep_items]
    cases i with
    | zero =>
      simp only [List.getD_cons_zero] at htext
      rw [if_neg htext]
      exact ⟨_, List.mem_cons_self _ _, by simp⟩
    | succ i' =>
      have hi' : i' < rest.length := by simpa using hi
      obtain ⟨m, hm, hidx⟩ := ih (start + 1) i' hi' (by simpa using htext)
      have hidx' : m.index = start + (i' + 1) := by omega
      split_ifs with h
      · exact ⟨m, hm, hidx'⟩
      · exact ⟨m, List.mem_cons_of_mem _ hm, hidx'⟩

theorem prepare_batches_nonempty (now : PyDateTime) (cs : List (List BulkItem)) :
    ∀ start i, i < cs.flatten.length → eff_text (cs.flatten.getD i default_item) ≠ "" →
      ∃ b ∈ (prepare_batches now start cs).1, ∃ m ∈ b.metadata, m.index = start + i := by
  induction cs with
  | nil => intro start i hi; simp at hi
  | cons c rest ih =>
    intro start i hi htext
    simp only [List.flatten_cons] at hi htext
    simp only [prepare_batches]
    by_cases hc : i < c.length
    · have htext' : eff_text (c.getD i default_item) ≠ "" := by
        rw [List.getD_eq_getElem?_getD, List.getElem?_append_left hc] at htext
        rw [List.getD_eq_getElem?_getD]
        exact htext
      obtain ⟨m, hm, hidx⟩ := prep_items_nonempty now c start i hc htext'
      have hne : ¬ ((prep_items now start c).1.isEmpty) := by
        intro habs
        rw [List.isEmpty_iff] at habs
        have hlen := prep_items_texts_length now start c
        rw [habs] at hlen
        have hmeta : (prep_items now start c).2.1 = [] := by
          simpa using List.eq_nil_of_length_eq_zero hlen.symm
        rw [hmeta] at hm
        simp at hm
      rw [if_neg hne]
      exact ⟨_, List.mem_cons_self _ _, m, hm, hidx⟩
    · push_neg at hc
      have hlen : i - c.length < rest.flatten.length := by
        rw [List.length_append] at hi
        omega
      have htext' : eff_text (rest.flatten.getD (i - c.length) default_item) ≠ "" := by
        rw [List.getD_eq_getElem?_getD, List.getElem?_append_right hc] at htext
        rw [List.getD_eq_getElem?_getD]
        exact htext
      obtain ⟨b, hb, m, hm, hidx⟩ := ih (start + c.length) (i - c.length) hlen htext'
      have hidx' : m.index = start + i := by omega
      split_ifs with h
      · exact ⟨b, hb, m, hm, hidx'⟩
      · exact ⟨b, List.mem_cons_of_mem _ hb, m, hm, hidx'⟩

theorem collect_ok_success_index_mem (fresh : Nat → String) (texts : List String)
    (metadata : List BulkMeta) (pairs : List (BulkMeta × Analysis))
    (h : ∀ j (hj : j < pairs.length),
      List.indexOf (pairs.get ⟨j, hj⟩).1 metadata < texts.length) :
    ∀ p ∈ pairs,
      p.1.index ∈ (collect_ok fresh texts metadata pairs).2.1.map BulkSuccess.index := by
  induction pairs with
  | nil => intro p hp; simp at hp
  | cons q rest ih =>
    intro p hp
    obtain ⟨meta, analysis⟩ := q
    have h0 : List.indexOf meta metadata < texts.length := by
      simpa using h 0 (by simp)
    have hrest : ∀ j (hj : j < rest.length),
        List.indexOf (rest.get ⟨j, hj⟩).1 metadata < texts.length := by
      intro j hj
      simpa using h (j + 1) (by simpa using Nat.succ_lt_succ hj)
    simp only [collect_ok]
    rw [if_pos h0]
    rcases List.mem_cons.mp hp with hp | hp
    · subst hp
      simp
    · simp only [List.map_cons, List.mem_cons]
      exact Or.inr (ih hrest p hp)

theorem collect_all_batch_success (fresh : Nat → String)
    (runBatch : List String → Except String (List Analysis))
    (pbs : List PreparedBatch)
    (hok : ∀ b ∈ pbs, b.texts.length = b.metadata.length)
    (hnd : ∀ b ∈ pbs, b.metadata.Nodup)
    (hrun : ∀ ts as, runBatch ts = .ok as → as.length = ts.length) :
    ∀ b ∈ pbs, ∀ analyses, runBatch b.texts = .ok analyses →
      ∀ m ∈ b.metadata,
        m.index ∈
          (collect_all fresh (run_batches runBatch pbs)).2.1.map BulkSuccess.index := by
  induction pbs with
  | nil => intro b hb; simp at hb
  | cons b0 rest ih =>
    intro b hb analyses hrb m hm
    simp only [run_batches, List.map_cons, collect_all, List.map_append]
    rcases List.mem_cons.mp hb with hb | hb
    · subst hb
      rw [hrb]
      simp only [collect_result]
      refine List.mem_append_left _ ?_
      have hlenm : b.metadata.length ≤ analyses.length := by
        rw [hrun b.texts analyses hrb, hok b (List.mem_cons_self b rest)]
      have hzl : (b.metadata.zip analyses).length = b.metadata.length := by
        rw [List.length_zip]
        omega
      obtain ⟨j, hj, hget⟩ := List.mem_iff_getElem.mp hm
      have hjz : j < (b.metadata.zip analyses).length := by omega
      have hpair : ((b.metadata.zip analyses).get ⟨j, hjz⟩).1 = m := by
        simp only [List.get_eq_getElem, List.getElem_zip]
        exact hget
      have hrange : ∀ k (hk : k < (b.metadata.zip analyses).length),
          List.indexOf ((b.metadata.zip analyses).get ⟨k, hk⟩).1 b.metadata <
            b.texts.length := by
        intro k hk
        have hkm : k < b.metadata.length := by omega
        have hfst : ((b.metadata.zip analyses).get ⟨k, hk⟩).1 =
            b.metadata.get ⟨k, hkm⟩ := by
          simp [List.get_eq_getElem, List.getElem_zip]
        rw [hfst]
        have := List.indexOf_getElem (hnd b (List.mem_cons_self b rest)) k hkm
        simp only [List.get_eq_getElem]
        rw [this, hok b (List.mem_cons_self b rest)]
        exact hkm
      have hmem := collect_ok_success_index_mem fresh b.texts b.metadata
        (b.metadata.zip analyses) hrange ((b.metadata.zip analyses).get ⟨j, hjz⟩)
        (List.get_mem _ j hjz)
      rw [hpair] at hmem
      exact hmem
    · refine List.mem_append_right _ ?_
      have := ih (fun x hx => hok x (List.mem_cons_of_mem b0 hx))
        (fun x hx => hnd x (List.mem_cons_of_mem b0 hx)) b hb analyses hrb m hm
      simpa [run_batches] using this

/-- Claim C6: for every parsed item list, the bulk result satisfies
total = N = number of success entries + number of failed entries; the
multiset of index values across success and failed is exactly the indexes
0..N-1, each exactly once; every item whose trimmed text is empty is in
failed with reason "Missing text"; every item of a batch whose analyze
call failed is in failed with the "Batch error: message" reason; every
remaining item (non-empty text) is prepared into some batch under its
global index, and when that batch's analyze call succeeds the item is
counted exactly once in success and zero times in failed.  (The runBatch
hypothesis records what claim C5 proves of analyzeBatch: a successful
batch call returns one analysis per text.) -/
theorem bulk_upload_totals (bs : Nat) (now : PyDateTime) (fresh : Nat → String)
    (runBatch : List String → Except String (List Analysis))
    (items : List BulkItem) (hbs : 1 ≤ bs)
    (hrun : ∀ ts as, runBatch ts = .ok as → as.length = ts.length) :
    (bulk_upload bs now fresh runBatch items).total = items.length
    ∧ List.Perm
        ((bulk_upload bs now fresh runBatch items).success.map BulkSuccess.index ++
         (bulk_upload bs now fresh runBatch items).failed.map BulkFailure.index)
        (List.range items.length)
    ∧ (bulk_upload bs now fresh runBatch items).success.length +
        (bulk_upload bs now fresh runBatch items).failed.length = items.length
    ∧ (∀ i, i < items.length → eff_text (items.getD i default_item) = "" →
        ({ index := i, error := "Missing text" } : BulkFailure) ∈
          (bulk_upload bs now fresh runBatch items).failed)
    ∧ (∀ b ∈ (prepare_batches now 0 (chunk_list bs items)).1,
        ∀ e, runBatch b.texts = .error e →
        ∀ m ∈ b.metadata,
          ({ index := m.index, error := "Batch error: " ++ e } : BulkFailure) ∈
            (bulk_upload bs now fresh runBatch items).failed)
    ∧ (∀ i, i < items.length → eff_text (items.getD i default_item) ≠ "" →
        ∃ b ∈ (prepare_batches now 0 (chunk_list bs items)).1,
          ∃ m ∈ b.metadata, m.index = i)
    ∧ (∀ b ∈ (prepare_batches now 0 (chunk_list bs items)).1,
        ∀ analyses, runBatch b.texts = .ok analyses →
        ∀ m ∈ b.metadata,
          ((bulk_upload bs now fresh runBatch items).success.map
              BulkSuccess.index).count m.index = 1
          ∧ ((bulk_upload bs now fresh runBatch items).failed.map
              BulkFailure.index).count m.index = 0) := by
  have hok : ∀ b ∈ (prepare_batches now 0 (chunk_list bs items)).1,
      b.texts.length = b.metadata.length :=
    fun b hb => (prepare_batches_inv now (chunk_list bs items) 0 b hb).1
  have hnd : ∀ b ∈ (prepare_batches now 0 (chunk_list bs items)).1,
      b.metadata.Nodup :=
    fun b hb => (prepare_batches_inv now (chunk_list bs items) 0 b hb).2
  have hsum : ((chunk_list bs items).map List.length).sum = items.length := by
    rw [← List.length_flatten, chunk_list_flatten]
  have hcperm := collect_run_index_perm fresh runBatch
    (prepare_batches now 0 (chunk_list bs items)).1 hok hrun
  have hpperm := prepare_batches_index_perm now (chunk_list bs items) 0
  rw [hsum] at hpperm
  have hmain : List.Perm
      ((bulk_upload bs now fresh runBatch items).success.map BulkSuccess.index ++
       (bulk_upload bs now fresh runBatch items).failed.map BulkFailure.index)
      (List.range items.length) := by
    show List.Perm
      ((collect_all fresh (run_batches runBatch
          (prepare_batches now 0 (chunk_list bs items)).1)).2.1.map BulkSuccess.index ++
        ((prepare_batches now 0 (chunk_list bs items)).2 ++
         (collect_all fresh (run_batches runBatch
          (prepare_batches now 0 (chunk_list bs items)).1)).2.2).map BulkFailure.index)
      (List.range items.length)
    rw [List.map_append, List.range_eq_range' items.length]
    set S := (collect_all fresh (run_batches runBatch
      (prepare_batches now 0 (chunk_list bs items)).1)).2.1.map BulkSuccess.index with hS
    set C := (collect_all fresh (run_batches runBatch
      (prepare_batches now 0 (chunk_list bs items)).1)).2.2.map BulkFailure.index with hC
    set F := (prepare_batches now 0 (chunk_list bs items)).2.map BulkFailure.index with hF
    refine List.Perm.trans ?_ hpperm
    have hstep1 : List.Perm (S ++ (F ++ C)) (S ++ (C ++ F)) :=
      List.perm_append_comm.append_left S
    have hstep2 : S ++ (C ++ F) = (S ++ C) ++ F := by rw [List.append_assoc]
    refine hstep1.trans ?_
    rw [hstep2]
    exact hcperm.append (List.Perm.refl F)
  refine ⟨rfl, hmain, ?_, ?_, ?_, ?_, ?_⟩
  · have hlen := hmain.length_eq
    simpa [List.length_append, List.length_map, List.length_range] using hlen
  · intro i hi htext
    have hi' : i < (chunk_list bs items).flatten.length := by
      rw [chunk_list_flatten]
      exact hi
    have htext' : eff_text ((chunk_list bs items).flatten.getD i default_item) = "" := by
      rw [chunk_list_flatten]
      exact htext
    have hmem := prepare_batches_missing now (chunk_list bs items) 0 i hi' htext'
    rw [Nat.zero_add] at hmem
    exact List.mem_append_left _ hmem
  · intro b hb e hrb m hm
    exact List.mem_append_right _
      (collect_all_batch_error fresh runBatch
        (prepare_batches now 0 (chunk_list bs items)).1 b hb e hrb m hm)
  · intro i hi htext
    have hi' : i < (chunk_list bs items).flatten.length := by
      rw [chunk_list_flatten]
      exact hi
    have htext' : eff_text ((chunk_list bs items).flatten.getD i default_item) ≠ "" := by
      rw [chunk_list_flatten]
      exact htext
    obtain ⟨b, hb, m, hm, hidx⟩ :=
      prepare_batches_nonempty now (chunk_list bs items) 0 i hi' htext'
    exact ⟨b, hb, m, hm, by omega⟩
  · intro b hb analyses hrb m hm
    have hmemS : m.index ∈
        (bulk_upload bs now fresh runBatch items).success.map BulkSuccess.index :=
      collect_all_batch_success fresh runBatch
        (prepare_batches now 0 (chunk_list bs items)).1 hok hnd hrun b hb
        analyses hrb m hm
    have hcount := hmain.count_eq m.index
    rw [List.count_append] at hcount
    have hmemrange : m.index ∈ List.range items.length :=
      hmain.mem_iff.mp (List.mem_append_left _ hmemS)
    have hrc : (List.range items.length).count m.index = 1 :=
      List.count_eq_one_of_mem (List.nodup_range items.length) hmemrange
    have hS1 : 0 < ((bulk_upload bs now fresh runBatch items).success.map
        BulkSuccess.index).count m.index :=
      List.count_pos_iff.mpr hmemS
    rw [hrc] at hcount
    omega

/-- Witness for claim C6 at a concrete input: three items of which two have
empty text, batch size 10, a predictor echoing one analysis per text —
success and failed indexes partition 0..2. -/
theorem bulk_upload_totals_witness :
    (1 : Nat) ≤ 10
    ∧ (bulk_upload 10 { wall := 0, tz := some 0 } (fun n => "u" ++ toString n)
        (fun ts => Except.ok (ts.map fun _ =>
          ({ sentiment := Sentiment.neutral, keyTopics := [], actionRequired := false,
             summary := "fine" } : Analysis)))
        [{ text := some "" }, { text := some "hello", userId := some "u2" }, {}]).success.length
      + (bulk_upload 10 { wall := 0, tz := some 0 } (fun n => "u" ++ toString n)
        (fun ts => Except.ok (ts.map fun _ =>
          ({ sentiment := Sentiment.neutral, keyTopics := [], actionRequired := false,
             summary := "fine" } : Analysis)))
        [{ text := some "" }, { text := some "hello", userId := some "u2" }, {}]).failed.length
      = 3 := by
  refine ⟨by decide, ?_⟩
  have h := (bulk_upload_totals 10 { wall := 0, tz := some 0 } (fun n => "u" ++ toString n)
    (fun ts => Except.ok (ts.map fun _ =>
      ({ sentiment := Sentiment.neutral, keyTopics := [], actionRequired := false,
         summary := "fine" } : Analysis)))
    [{ text := some "" }, { text := some "hello", userId := some "u2" }, {}]
    (by decide)
    (fun ts as has => by
      have : as = ts.map fun _ =>
          ({ sentiment := Sentiment.neutral, keyTopics := [], actionRequired := false,
             summary := "fine" } : Analysis) := by
        cases has
        rfl
      rw [this, List.length_map])).2.2.1
  simpa using h

end FeedbackAnalyzer
